import Mathlib

/-!
Verification of the `nix-review` command-line driver (`nix_review/cli.py`)
against its natural-language specification.

The development shallowly embeds the orchestration core of the program:

* `parse_pr_numbers` — the pull-request range parser (tokens are `List Char`);
* `prLoop` / `prBatch` / `pr_command` — the batch orchestrator, modelled as a
  trace-producing function parameterised by an oracle for the external
  collaborators (workspace provider and build pipeline);
* `rev_command` — the single-commit orchestrator;
* `main` — the top-level dispatch wrapped in the sandboxed build environment.

External collaborators (`Worktree`, `Review.build_pr`, `nix_shell`,
`Buildenv`, `git rev-parse`) are out of scope per the specification; their
observable interactions are recorded as `Event`s and their outcomes supplied
by oracle functions.
-/

namespace NixReview

/-! ## Range parser (`parse_pr_numbers`) -/

/-- Numeric value of a list of decimal digit characters, most significant
first, as computed by Python's `int` on a digit-only string. -/
def digitsToNat (l : List Char) : Nat :=
  l.foldl (fun acc c => acc * 10 + (c.toNat - 48)) 0

/-- The list produced by Python's `range(lo, hi)`: the half-open interval
`[lo, hi)`, empty when `hi ≤ lo`. Elements are integers, matching the
element type of the parsed pull-request list. -/
def rangeList (lo hi : Nat) : List Int :=
  (List.range (hi - lo)).map (fun k => ((lo + k : Nat) : Int))

/-- Embedding of `re.match(r"(\d+)-(\d+)", arg)`: the pattern is anchored at
the start of the token only, so trailing characters after the second digit
group are ignored. Since `\d+` cannot match `-`, the regex engine's greedy
match with backtracking coincides with taking the maximal digit prefix,
requiring a dash, then taking the maximal digit run after it. Returns the
numeric values of the two capture groups. -/
def matchRange (s : List Char) : Option (Nat × Nat) :=
  let d1 := s.takeWhile Char.isDigit
  if d1 = [] then none
  else
    match s.dropWhile Char.isDigit with
    | '-' :: r2 =>
      let d2 := r2.takeWhile Char.isDigit
      if d2 = [] then none
      else some (digitsToNat d1, digitsToNat d2)
    | _ => none

/-- Whitespace characters stripped by Python's `int` before parsing. -/
def pyWS (c : Char) : Bool :=
  c = ' ' || c = '\t' || c = '\n' || c = '\r' || c = '\x0b' || c = '\x0c'

/-- Digit tail of a Python integer literal: digits, with single underscores
allowed between digits (Python rejects doubled, leading and trailing
underscores). The accumulator holds the value read so far. -/
def pyDigitsGo : List Char → Nat → Option Nat
  | [], acc => some acc
  | '_' :: c :: rest, acc =>
      if c.isDigit then pyDigitsGo rest (acc * 10 + (c.toNat - 48)) else none
  | ['_'], _ => none
  | c :: rest, acc =>
      if c.isDigit then pyDigitsGo rest (acc * 10 + (c.toNat - 48)) else none

/-- Unsigned part of a Python integer literal: at least one digit, then
`pyDigitsGo`. -/
def pyIntCore : List Char → Option Nat
  | [] => none
  | c :: rest => if c.isDigit then pyDigitsGo rest (c.toNat - 48) else none

/-- Embedding of Python's built-in `int` applied to a string: surrounding
whitespace is stripped, an optional sign is read, and the rest must be a
non-empty digit sequence (underscores permitted between digits). Returns
`none` where Python raises `ValueError`. -/
def pyInt (s : List Char) : Option Int :=
  let t := ((s.dropWhile pyWS).reverse.dropWhile pyWS).reverse
  match t with
  | '+' :: rest => (pyIntCore rest).map (fun n => (n : Int))
  | '-' :: rest => (pyIntCore rest).map (fun n => -(n : Int))
  | u => (pyIntCore u).map (fun n => (n : Int))

/-- Result of `parse_pr_numbers`: either the parsed list, or the process
terminates (`sys.exit(code)`) after printing `msg` to the error stream. -/
inductive ParseResult where
  | ok (prs : List Int)
  | exit (msg : String) (code : Nat)
deriving DecidableEq

/-- Embedding of `parse_pr_numbers`. For each token: if the range regex
matches, the half-open range of the two capture groups is appended;
otherwise the token is parsed with `int`, and on `ValueError` the process
prints `f"expected number, got {m}"` — where the match object `m` is `None`
on this branch — and exits with status 1, discarding any numbers already
accumulated. -/
def parse_pr_numbers : List (List Char) → ParseResult
  | [] => .ok []
  | arg :: rest =>
    match matchRange arg with
    | some (lo, hi) =>
      match parse_pr_numbers rest with
      | .ok prs => .ok (rangeList lo hi ++ prs)
      | e => e
    | none =>
      match pyInt arg with
      | some n =>
        match parse_pr_numbers rest with
        | .ok prs => .ok (n :: prs)
        | e => e
      | none => .exit "expected number, got None" 1

/-- Expansion contributed by a single token of the parser's input, read off
from the parser's two accepting branches. -/
def expandToken (t : List Char) : List Int :=
  match matchRange t with
  | some (lo, hi) => rangeList lo hi
  | none =>
    match pyInt t with
    | some n => [n]
    | none => []

/-- A token is well formed when one of the parser's two accepting branches
applies: the range regex matches, or Python's `int` accepts it. -/
def wellFormed (t : List Char) : Bool :=
  (matchRange t).isSome || (pyInt t).isSome

/-! ## Batch orchestrator (`pr_command`) -/

/-- Observable interactions of one run: worktree acquisition/release
(indexed by loop position, since duplicate pull-request numbers yield
worktrees with equal names), output lines, the `NIX_PATH` environment
write, the interactive shell launch, the single-commit review step, and
entry/exit of the sandboxed build environment. -/
inductive Event where
  | acquire (i : Nat) (nm : String)
  | release (i : Nat) (nm : String)
  | stderrLine (msg : String)
  | stdoutLine (msg : String)
  | setNixPath (p : String)
  | shell (attrs : List String)
  | review (branch : String) (commit : String)
  | buildenvEnter
  | buildenvExit
deriving DecidableEq

/-- Outcome of one iteration of the acquisition/build loop, supplied by an
oracle indexed by loop position: `Worktree.__enter__` may raise
(`acquireError`); otherwise `Review(...).build_pr(pr)` either returns the
set of built attributes, raises `subprocess.CalledProcessError`
(`buildFailure`), or raises any other exception (`buildOtherError`). -/
inductive StepOutcome where
  | buildSuccess (attrs : List String)
  | buildFailure
  | buildOtherError
  | acquireError
deriving DecidableEq

/-- An outcome the loop absorbs without aborting: a successful build or the
caught `subprocess.CalledProcessError`. -/
def isSoft : StepOutcome → Bool
  | .buildSuccess _ => true
  | .buildFailure => true
  | _ => false

/-- Exit disposition of a command: normal return (process status 0),
`sys.exit(code)`, or a propagating exception. -/
inductive ExitKind where
  | normal
  | exitCode (code : Nat)
  | exception
deriving DecidableEq

/-- Name given to the worktree of pull request `pr`: `f"pr-{pr}"`. -/
def wname (pr : Int) : String := "pr-" ++ toString pr

/-- URL printed for pull request `pr`. -/
def prUrl (pr : Int) : String :=
  "https://github.com/NixOS/nixpkgs/pull/" ++ toString pr

/-- Error-stream line printed when the build of `pr` fails. -/
def prFailMsg (pr : Int) : String := prUrl pr ++ " failed to build"

/-- State accumulated by the acquisition/build loop of `pr_command`:
the event trace so far, the worktrees entered on the `ExitStack` in
acquisition order, the retained `contexts` list of
`(pr, worktree index, built attributes)` for successful builds, and
whether an uncaught exception aborted the loop. -/
structure LoopOut where
  trace : List Event
  acquired : List (Nat × String)
  contexts : List (Int × Nat × List String)
  aborted : Bool
deriving DecidableEq

/-- The acquisition/build loop of `pr_command`, iterating over the parsed
pull-request list with loop position `i`. Each iteration enters a worktree
on the stack, then runs the build: a success is retained in `contexts`, a
`CalledProcessError` prints a failure notice and continues, and any other
exception (or a failure of worktree acquisition itself, which happens
before the `try`) aborts the loop at once. -/
def prLoop (o : Nat → StepOutcome) : Nat → List Int → LoopOut
  | _, [] => ⟨[], [], [], false⟩
  | i, pr :: rest =>
    match o i with
    | .acquireError => ⟨[], [], [], true⟩
    | .buildOtherError =>
        ⟨[Event.acquire i (wname pr)], [(i, wname pr)], [], true⟩
    | .buildFailure =>
        let r := prLoop o (i + 1) rest
        ⟨Event.acquire i (wname pr) :: Event.stderrLine (prFailMsg pr) :: r.trace,
         (i, wname pr) :: r.acquired, r.contexts, r.aborted⟩
    | .buildSuccess attrs =>
        let r := prLoop o (i + 1) rest
        ⟨Event.acquire i (wname pr) :: r.trace,
         (i, wname pr) :: r.acquired, (pr, i, attrs) :: r.contexts, r.aborted⟩

/-- Unwinding of the `ExitStack`: every worktree entered on the stack is
exited, in reverse acquisition order. -/
def relTrace (acq : List (Nat × String)) : List Event :=
  acq.reverse.map (fun p => Event.release p.1 p.2)

/-- The shell-handoff loop of `pr_command`: for each retained success, in
retention order, print its URL, overwrite the process-wide `NIX_PATH` with
that worktree's `nixpkgs_path()` (given by `path` at the worktree's index),
and launch `nix_shell` on its built attributes. -/
def shellTrace (path : Nat → String) (ctxs : List (Int × Nat × List String)) :
    List Event :=
  ctxs.flatMap (fun c =>
    [Event.stdoutLine (prUrl c.1), Event.setNixPath (path c.2.1),
     Event.shell c.2.2])

/-- The body of `pr_command` after parsing, over the parsed pull-request
list: run the acquisition/build loop inside the `ExitStack` scope. If the
loop aborted, the stack unwinds and the exception propagates. Otherwise the
shell-handoff loop runs, then `sys.exit(1)` is raised iff some request is
missing from `contexts`; either way the stack unwinds at the very end. -/
def prBatch (o : Nat → StepOutcome) (path : Nat → String) (prs : List Int) :
    List Event × ExitKind :=
  let r := prLoop o 0 prs
  if r.aborted then
    (r.trace ++ relTrace r.acquired, .exception)
  else
    (r.trace ++ shellTrace path r.contexts ++ relTrace r.acquired,
     if r.contexts.length = prs.length then .normal else .exitCode 1)

/-- Embedding of `pr_command`: parse the number tokens, then run the batch.
A parse failure prints its message to the error stream and exits with the
parser's status before any worktree is touched. -/
def pr_command (o : Nat → StepOutcome) (path : Nat → String)
    (numberArgs : List (List Char)) : List Event × ExitKind :=
  match parse_pr_numbers numberArgs with
  | .exit msg code => ([Event.stderrLine msg], .exitCode code)
  | .ok prs => prBatch o path prs

/-! ## Single-commit orchestrator (`rev_command`) -/

/-- Embedding of `rev_command`. `resolve` is the outcome of
`git rev-parse --verify` run with `check=True`: `none` means the call
raised `CalledProcessError`, which propagates before any worktree exists;
`some commit` is the decoded stdout. On success one worktree named
`f"rev-{commit}"` is entered, `review_commit` runs against the base
branch (`reviewFails` tells whether it raises), and the worktree scope
exits on both paths. -/
def rev_command (resolve : Option String) (branch : String)
    (reviewFails : Bool) : List Event × ExitKind :=
  match resolve with
  | none => ([], .exception)
  | some commit =>
      ([Event.acquire 0 ("rev-" ++ commit), Event.review branch commit,
        Event.release 0 ("rev-" ++ commit)],
       if reviewFails then .exception else .normal)

/-! ## Top-level dispatch (`main`) -/

/-- A parsed invocation: the subcommand chosen by `parse_args` together
with the oracles for its external collaborators. -/
inductive Cmd where
  | pr (o : Nat → StepOutcome) (path : Nat → String)
      (numberArgs : List (List Char))
  | rev (resolve : Option String) (branch : String) (reviewFails : Bool)

/-- Dispatch to the handler bound to the parsed subcommand
(`args.func(args)`). -/
def runCmd : Cmd → List Event × ExitKind
  | .pr o path numberArgs => pr_command o path numberArgs
  | .rev resolve branch reviewFails => rev_command resolve branch reviewFails

/-- Embedding of `main`: the whole dispatch-and-execute sequence runs
inside the `Buildenv` context manager, whose teardown runs on normal
return, on `sys.exit`, and on a propagating exception alike. -/
def main (c : Cmd) : List Event × ExitKind :=
  let r := runCmd c
  (Event.buildenvEnter :: r.1 ++ [Event.buildenvExit], r.2)

/-! ## Event classifiers and specification-side functions -/

/-- Event classifier: worktree acquisition. -/
def isAcquire : Event → Bool
  | .acquire _ _ => true
  | _ => false

/-- Event classifier: worktree release. -/
def isRelease : Event → Bool
  | .release _ _ => true
  | _ => false

/-- Event classifier: shell launch. -/
def isShell : Event → Bool
  | .shell _ => true
  | _ => false

/-- Event classifier: the two events making up one shell handoff, the
`NIX_PATH` write and the shell launch. -/
def isHandoff : Event → Bool
  | .setNixPath _ => true
  | .shell _ => true
  | _ => false

/-- Event classifier: single-commit review step. -/
def isReview : Event → Bool
  | .review _ _ => true
  | _ => false

/-- Event classifier: entry or teardown of the sandboxed build
environment. -/
def isBuildenvEv : Event → Bool
  | .buildenvEnter => true
  | .buildenvExit => true
  | _ => false

/-- The release event matching an acquisition event. -/
def toRelease : Event → Event
  | .acquire i nm => .release i nm
  | e => e

/-- Specification-side list of successful changes, in request order:
`(pr, position, attrs)` for every position whose oracle outcome is a
successful build. `prLoop`'s retained `contexts` are proved equal to it. -/
def specSuccesses (o : Nat → StepOutcome) : Nat → List Int →
    List (Int × Nat × List String)
  | _, [] => []
  | i, pr :: rest =>
    match o i with
    | .buildSuccess attrs => (pr, i, attrs) :: specSuccesses o (i + 1) rest
    | _ => specSuccesses o (i + 1) rest

/-- Number of requested changes whose build fails (the `K` of the
specification's batch invariant). -/
def failCount (o : Nat → StepOutcome) : Nat → List Int → Nat
  | _, [] => 0
  | i, _ :: rest =>
      (if o i = .buildFailure then 1 else 0) + failCount o (i + 1) rest

/-- Sample oracle used by the concrete witnesses: the build of the change
at position 1 fails, every other build succeeds. -/
def oSample : Nat → StepOutcome :=
  fun i => if i = 1 then .buildFailure else .buildSuccess ["pkg"]

/-- Sample worktree-path oracle used by the concrete witnesses. -/
def pathSample : Nat → String := fun i => "path-" ++ toString i

/-! ### Parser lemmas -/

lemma takeWhile_append_eq (p : Char → Bool) :
    ∀ (d s : List Char), (∀ c ∈ d, p c = true) → s.takeWhile p = [] →
      (d ++ s).takeWhile p = d ∧ (d ++ s).dropWhile p = s := by
  intro d
  induction d with
  | nil =>
    intro s _ hs
    refine ⟨by simpa using hs, ?_⟩
    cases s with
    | nil => simp
    | cons c cs =>
      rw [List.takeWhile_cons] at hs
      cases hpc : p c with
      | true => rw [hpc] at hs; simp at hs
      | false => simp [List.dropWhile_cons, hpc]
  | cons a d ih =>
    intro s h hs
    have ha : p a = true := h a (by simp)
    have hd : ∀ c ∈ d, p c = true := fun c hc => h c (by simp [hc])
    obtain ⟨h1, h2⟩ := ih s hd hs
    simp [List.takeWhile_cons, List.dropWhile_cons, ha, h1, h2]

lemma matchRange_eq (d1 d2 s : List Char)
    (h1 : d1 ≠ []) (h2 : d2 ≠ [])
    (hd1 : ∀ c ∈ d1, c.isDigit = true) (hd2 : ∀ c ∈ d2, c.isDigit = true)
    (hs : s.takeWhile Char.isDigit = []) :
    matchRange (d1 ++ '-' :: (d2 ++ s)) = some (digitsToNat d1, digitsToNat d2) := by
  have hdash : ('-' :: (d2 ++ s)).takeWhile Char.isDigit = [] := by
    rw [List.takeWhile_cons]
    simp
  obtain ⟨ht1, hdr1⟩ := takeWhile_append_eq Char.isDigit d1 ('-' :: (d2 ++ s)) hd1 hdash
  obtain ⟨ht2, hdr2⟩ := takeWhile_append_eq Char.isDigit d2 s hd2 hs
  simp only [matchRange, ht1, hdr1, ht2]
  simp [h1, h2]

lemma parse_single_range (d1 d2 s : List Char)
    (h1 : d1 ≠ []) (h2 : d2 ≠ [])
    (hd1 : ∀ c ∈ d1, c.isDigit = true) (hd2 : ∀ c ∈ d2, c.isDigit = true)
    (hs : s.takeWhile Char.isDigit = []) :
    parse_pr_numbers [d1 ++ '-' :: (d2 ++ s)]
      = .ok (rangeList (digitsToNat d1) (digitsToNat d2)) := by
  simp [parse_pr_numbers, matchRange_eq d1 d2 s h1 h2 hd1 hd2 hs]

lemma rangeList_eq_nil (lo hi : Nat) (h : hi ≤ lo) : rangeList lo hi = [] := by
  simp [rangeList, Nat.sub_eq_zero_of_le h]

/-! ### Batch loop lemmas -/

lemma prLoop_soft (o : Nat → StepOutcome) :
    ∀ (prs : List Int) (i : Nat),
      (∀ k, k < prs.length → isSoft (o (i + k)) = true) →
      (prLoop o i prs).aborted = false
      ∧ (prLoop o i prs).contexts = specSuccesses o i prs
      ∧ (prLoop o i prs).contexts.length + failCount o i prs = prs.length
      ∧ (prLoop o i prs).acquired.length = prs.length := by
  intro prs
  induction prs with
  | nil => intro i _; simp [prLoop, specSuccesses, failCount]
  | cons pr rest ih =>
    intro i h
    have h0 : isSoft (o i) = true := by
      have := h 0 (by simp)
      simpa using this
    have hrest : ∀ k, k < rest.length → isSoft (o (i + 1 + k)) = true := by
      intro k hk
      have := h (k + 1) (by simpa using Nat.succ_lt_succ hk)
      have e : i + (k + 1) = i + 1 + k := by omega
      rwa [e] at this
    obtain ⟨ha, hc, hl, hacq⟩ := ih (i + 1) hrest
    rw [hc] at hl
    cases ho : o i with
    | buildSuccess attrs =>
      simp only [prLoop, ho]
      simp [specSuccesses, failCount, ho, ha, hc, hacq]
      omega
    | buildFailure =>
      simp only [prLoop, ho]
      simp [specSuccesses, failCount, ho, ha, hc, hacq]
      omega
    | buildOtherError => rw [ho] at h0; simp [isSoft] at h0
    | acquireError => rw [ho] at h0; simp [isSoft] at h0

lemma prLoop_append (o : Nat → StepOutcome) :
    ∀ (pre rest : List Int) (i : Nat),
      (∀ k, k < pre.length → isSoft (o (i + k)) = true) →
      prLoop o i (pre ++ rest)
        = ⟨(prLoop o i pre).trace ++ (prLoop o (i + pre.length) rest).trace,
           (prLoop o i pre).acquired
             ++ (prLoop o (i + pre.length) rest).acquired,
           (prLoop o i pre).contexts
             ++ (prLoop o (i + pre.length) rest).contexts,
           (prLoop o (i + pre.length) rest).aborted⟩ := by
  intro pre
  induction pre with
  | nil => intro rest i _; simp [prLoop]
  | cons pr tl ih =>
    intro rest i h
    have h0 : isSoft (o i) = true := by
      have := h 0 (by simp)
      simpa using this
    have htl : ∀ k, k < tl.length → isSoft (o (i + 1 + k)) = true := by
      intro k hk
      have := h (k + 1) (by simpa using Nat.succ_lt_succ hk)
      have e : i + (k + 1) = i + 1 + k := by omega
      rwa [e] at this
    have e : i + (tl.length + 1) = i + 1 + tl.length := by omega
    cases ho : o i with
    | buildSuccess attrs =>
      simp only [List.cons_append, prLoop, ho, List.append_eq,
        List.length_cons]
      rw [e, ih rest (i + 1) htl]
    | buildFailure =>
      simp only [List.cons_append, prLoop, ho, List.append_eq,
        List.length_cons]
      rw [e, ih rest (i + 1) htl]
    | buildOtherError => rw [ho] at h0; simp [isSoft] at h0
    | acquireError => rw [ho] at h0; simp [isSoft] at h0

lemma prLoop_filters (o : Nat → StepOutcome) :
    ∀ (prs : List Int) (i : Nat),
      (prLoop o i prs).trace.filter isAcquire
        = (prLoop o i prs).acquired.map (fun p => Event.acquire p.1 p.2)
      ∧ (prLoop o i prs).trace.filter isRelease = []
      ∧ (prLoop o i prs).trace.filter isHandoff = []
      ∧ (prLoop o i prs).trace.filter isShell = []
      ∧ (prLoop o i prs).trace.filter isBuildenvEv = [] := by
  intro prs
  induction prs with
  | nil => intro i; simp [prLoop]
  | cons pr rest ih =>
    intro i
    obtain ⟨hA, hR, hH, hS, hB⟩ := ih (i + 1)
    cases ho : o i with
    | buildSuccess attrs =>
      simp only [prLoop, ho]
      simp [isAcquire, isRelease, isHandoff, isShell, isBuildenvEv,
        hA, hR, hH, hS, hB]
    | buildFailure =>
      simp only [prLoop, ho]
      simp [isAcquire, isRelease, isHandoff, isShell, isBuildenvEv,
        hA, hR, hH, hS, hB]
    | buildOtherError =>
      simp only [prLoop, ho]
      simp [isAcquire, isRelease, isHandoff, isShell, isBuildenvEv]
    | acquireError =>
      simp only [prLoop, ho]
      simp

lemma shellTrace_filters (path : Nat → String)
    (ctxs : List (Int × Nat × List String)) :
    (shellTrace path ctxs).filter isAcquire = []
    ∧ (shellTrace path ctxs).filter isRelease = []
    ∧ (shellTrace path ctxs).filter isBuildenvEv = []
    ∧ (shellTrace path ctxs).filter isHandoff
        = ctxs.flatMap
            (fun c => [Event.setNixPath (path c.2.1), Event.shell c.2.2])
    ∧ (shellTrace path ctxs).filter isShell
        = ctxs.map (fun c => Event.shell c.2.2) := by
  induction ctxs with
  | nil => simp [shellTrace]
  | cons c tl ih =>
    obtain ⟨h1, h2, h3, h4, h5⟩ := ih
    simp only [shellTrace, List.flatMap_cons] at *
    simp [isAcquire, isRelease, isHandoff, isShell, isBuildenvEv,
      h1, h2, h3, h4, h5]

lemma relTrace_filters (acq : List (Nat × String)) :
    (relTrace acq).filter isRelease = relTrace acq
    ∧ (relTrace acq).filter isAcquire = []
    ∧ (relTrace acq).filter isHandoff = []
    ∧ (relTrace acq).filter isShell = []
    ∧ (relTrace acq).filter isBuildenvEv = [] := by
  have key : ∀ l : List (Nat × String),
      (l.map (fun p => Event.release p.1 p.2)).filter isRelease
          = l.map (fun p => Event.release p.1 p.2)
      ∧ (l.map (fun p => Event.release p.1 p.2)).filter isAcquire = []
      ∧ (l.map (fun p => Event.release p.1 p.2)).filter isHandoff = []
      ∧ (l.map (fun p => Event.release p.1 p.2)).filter isShell = []
      ∧ (l.map (fun p => Event.release p.1 p.2)).filter isBuildenvEv
          = [] := by
    intro l
    induction l with
    | nil => simp
    | cons a tl ih =>
      obtain ⟨h1, h2, h3, h4, h5⟩ := ih
      simp [isAcquire, isRelease, isHandoff, isShell, isBuildenvEv,
        h1, h2, h3, h4, h5]
  simpa [relTrace] using key acq.reverse

lemma relTrace_eq_rev_acquires (acq : List (Nat × String)) :
    relTrace acq
      = ((acq.map (fun p => Event.acquire p.1 p.2)).reverse).map toRelease := by
  simp only [relTrace, List.map_reverse, List.map_map]
  rfl

lemma not_mem_of_filter_nil {p : Event → Bool} {l : List Event}
    (hf : l.filter p = []) {e : Event} (he : p e = true) : e ∉ l := by
  intro hm
  have := List.filter_eq_nil_iff.mp hf e hm
  simp [he] at this

/-! ### Claim C2 -/

/-- C2: on a list of well-formed tokens the parser returns, in input order,
the concatenation of each token's expansion — a range token contributes the
half-open interval excluding its upper bound, a literal integer token
contributes the single integer it denotes, and no deduplication or sorting
is performed, so duplicates and input ordering are preserved. -/
theorem parse_pr_numbers_concat (toks : List (List Char))
    (h : ∀ t ∈ toks, wellFormed t = true) :
    parse_pr_numbers toks = .ok (toks.flatMap expandToken) := by
  induction toks with
  | nil => simp [parse_pr_numbers]
  | cons t rest ih =>
    have ht : wellFormed t = true := h t (by simp)
    have hrest := ih (fun u hu => h u (by simp [hu]))
    cases hm : matchRange t with
    | some v =>
      obtain ⟨lo, hi⟩ := v
      simp [parse_pr_numbers, hm, hrest, expandToken]
    | none =>
      cases hp : pyInt t with
      | some n => simp [parse_pr_numbers, hm, hp, hrest, expandToken]
      | none => simp [wellFormed, hm, hp] at ht

/-- Concrete instance of C2: `parse(["10", "20-22"]) == [10, 20, 21]`. -/
theorem parse_pr_numbers_concat_witness :
    parse_pr_numbers [['1', '0'], ['2', '0', '-', '2', '2']]
      = .ok [10, 20, 21] := by
  have h := parse_pr_numbers_concat [['1', '0'], ['2', '0', '-', '2', '2']]
    (by decide)
  rw [h]
  decide

/-! ### Claim C6 -/

/-- C6: on a token that is neither a valid range nor a valid integer the
parser terminates the process with status 1 and no partial output list, and
`pr_command` performs no workspace work — but the line printed to the error
stream is `"expected number, got None"`: the code interpolates the regex
match object `m`, which is `None` on this branch, so the malformed token
itself is never reported. -/
theorem parse_pr_numbers_malformed :
    parse_pr_numbers [['a', 'b', 'c']]
      = .exit "expected number, got None" 1
    ∧ ∀ (o : Nat → StepOutcome) (path : Nat → String),
        pr_command o path [['a', 'b', 'c']]
          = ([Event.stderrLine "expected number, got None"],
             ExitKind.exitCode 1) :=
  ⟨by decide, fun o path => rfl⟩

/-! ### Claim C9 -/

/-- C9: a token made of a digit group, a dash, a digit group and then
trailing characters that do not begin with a digit is accepted, and only
the matched numeric prefix is expanded as the half-open range — the range
pattern is matched at the start of the token only, never against the whole
token. -/
theorem parse_range_trailing_chars (d1 d2 s : List Char)
    (h1 : d1 ≠ []) (h2 : d2 ≠ [])
    (hd1 : ∀ c ∈ d1, c.isDigit = true) (hd2 : ∀ c ∈ d2, c.isDigit = true)
    (hs : s.takeWhile Char.isDigit = []) :
    parse_pr_numbers [d1 ++ '-' :: (d2 ++ s)]
      = .ok (rangeList (digitsToNat d1) (digitsToNat d2)) :=
  parse_single_range d1 d2 s h1 h2 hd1 hd2 hs

/-- Concrete instance of C9: `parse(["5-7x"]) == [5, 6]`. -/
theorem parse_range_trailing_chars_witness :
    parse_pr_numbers [['5', '-', '7', 'x']] = .ok [5, 6] := by
  have h := parse_range_trailing_chars ['5'] ['7'] ['x']
    (by decide) (by decide) (by decide) (by decide) (by decide)
  exact h.trans (by decide)

/-! ### Claim C10 -/

/-- C10: a range token `a-b` with `a ≥ b` contributes an empty expansion —
the parser neither reports an error nor terminates, and the token adds zero
change identifiers. -/
theorem parse_range_empty (d1 d2 : List Char)
    (h1 : d1 ≠ []) (h2 : d2 ≠ [])
    (hd1 : ∀ c ∈ d1, c.isDigit = true) (hd2 : ∀ c ∈ d2, c.isDigit = true)
    (hle : digitsToNat d2 ≤ digitsToNat d1) :
    parse_pr_numbers [d1 ++ '-' :: d2] = .ok []
    ∧ expandToken (d1 ++ '-' :: d2) = [] := by
  have hm : matchRange (d1 ++ '-' :: d2)
      = some (digitsToNat d1, digitsToNat d2) := by
    have := matchRange_eq d1 d2 [] h1 h2 hd1 hd2 (by simp)
    simpa using this
  constructor
  · have := parse_single_range d1 d2 [] h1 h2 hd1 hd2 (by simp)
    simpa [rangeList_eq_nil _ _ hle] using this
  · simp [expandToken, hm, rangeList_eq_nil _ _ hle]

/-- Concrete instance of C10: `parse(["7-5"]) == []`. -/
theorem parse_range_empty_witness :
    parse_pr_numbers [['7', '-', '5']] = .ok []
    ∧ expandToken ['7', '-', '5'] = [] := by
  have h := parse_range_empty ['7'] ['5']
    (by decide) (by decide) (by decide) (by decide) (by decide)
  exact ⟨h.1, h.2⟩

/-! ### Claim C1 -/

/-- C1: in a batch over a parsed list of `N` changes of which exactly
`failCount` fail to build, the retained successes never outnumber the
requests, the process exits with status zero iff no build failed (the count
of successes equals the count of requests), and the status is non-zero
(`sys.exit(1)`) iff the invariant inequality
`len(contexts) ≤ len(prs)` is strict. -/
theorem pr_exit_status (o : Nat → StepOutcome) (path : Nat → String)
    (prs : List Int) (h : ∀ i, i < prs.length → isSoft (o i) = true) :
    (prLoop o 0 prs).contexts.length ≤ prs.length
    ∧ ((prBatch o path prs).2 = ExitKind.normal
        ↔ failCount o 0 prs = 0)
    ∧ ((prBatch o path prs).2 = ExitKind.exitCode 1
        ↔ (prLoop o 0 prs).contexts.length < prs.length) := by
  obtain ⟨ha, hc, hl, hacq⟩ := prLoop_soft o prs 0
    (by intro k hk; simpa using h k hk)
  refine ⟨by omega, ?_, ?_⟩
  · by_cases he : (prLoop o 0 prs).contexts.length = prs.length
    · simp [prBatch, ha, he]
      omega
    · simp [prBatch, ha, he]
      omega
  · by_cases he : (prLoop o 0 prs).contexts.length = prs.length
    · simp [prBatch, ha, he]
    · simp [prBatch, ha, he]
      omega

/-- Concrete instance of C1: three requests of which the second fails to
build give two retained successes and exit status 1. -/
theorem pr_exit_status_witness :
    (prLoop oSample 0 [10, 20, 30]).contexts.length ≤ 3
    ∧ ((prBatch oSample pathSample [10, 20, 30]).2 = ExitKind.normal
        ↔ failCount oSample 0 [10, 20, 30] = 0)
    ∧ ((prBatch oSample pathSample [10, 20, 30]).2 = ExitKind.exitCode 1
        ↔ (prLoop oSample 0 [10, 20, 30]).contexts.length < 3) :=
  pr_exit_status oSample pathSample [10, 20, 30] (by decide)

/-! ### Claim C3 -/

/-- C3: in a batch of `N` changes of which `failCount` fail, the handoff
events of the trace are exactly, for each success in original request
order, the `NIX_PATH` write of that success's worktree-derived path
immediately followed by the shell launch on that success's built package
set — so exactly `N - failCount` shell handoffs occur, in request order,
each directly preceded by its own environment write. -/
theorem pr_shell_handoffs (o : Nat → StepOutcome) (path : Nat → String)
    (prs : List Int) (h : ∀ i, i < prs.length → isSoft (o i) = true) :
    (prBatch o path prs).1.filter isHandoff
      = (specSuccesses o 0 prs).flatMap
          (fun c => [Event.setNixPath (path c.2.1), Event.shell c.2.2])
    ∧ ((prBatch o path prs).1.filter isShell).length
        = prs.length - failCount o 0 prs := by
  obtain ⟨ha, hc, hl, hacq⟩ := prLoop_soft o prs 0
    (by intro k hk; simpa using h k hk)
  obtain ⟨lA, lR, lH, lS, lB⟩ := prLoop_filters o prs 0
  obtain ⟨sA, sR, sB, sH, sS⟩ :=
    shellTrace_filters path (prLoop o 0 prs).contexts
  obtain ⟨rR, rA, rH, rS, rB⟩ := relTrace_filters (prLoop o 0 prs).acquired
  have htr : (prBatch o path prs).1
      = (prLoop o 0 prs).trace
          ++ shellTrace path (prLoop o 0 prs).contexts
          ++ relTrace (prLoop o 0 prs).acquired := by
    simp [prBatch, ha]
  constructor
  · rw [htr, List.filter_append, List.filter_append, lH, sH, rH, hc]
    simp
  · rw [htr, List.filter_append, List.filter_append, lS, sS, rS]
    simp only [List.nil_append, List.append_nil, List.length_map]
    omega

/-- Concrete instance of C3: with the second of three builds failing, the
handoff subtrace consists of the two successes' environment writes and
shell launches, in request order. -/
theorem pr_shell_handoffs_witness :
    (prBatch oSample pathSample [10, 20, 30]).1.filter isHandoff
      = (specSuccesses oSample 0 [10, 20, 30]).flatMap
          (fun c =>
            [Event.setNixPath (pathSample c.2.1), Event.shell c.2.2])
    ∧ ((prBatch oSample pathSample [10, 20, 30]).1.filter isShell).length
        = 3 - failCount oSample 0 [10, 20, 30] :=
  pr_shell_handoffs oSample pathSample [10, 20, 30] (by decide)

/-! ### Claim C4 -/

/-- C4: for every oracle — in particular whenever some builds fail — the
trace of the batch splits into a prefix containing no release event at
all, followed by the releases of exactly the acquired worktrees in reverse
acquisition order: no workspace is released at the time of a failure, and
every acquired workspace is released exactly once, when the batch's single
resource scope unwinds at the very end of the command. -/
theorem pr_release_discipline (o : Nat → StepOutcome) (path : Nat → String)
    (prs : List Int) :
    ∃ pre, (prBatch o path prs).1
        = pre ++ ((pre.filter isAcquire).reverse.map toRelease)
      ∧ pre.filter isRelease = [] := by
  obtain ⟨lA, lR, lH, lS, lB⟩ := prLoop_filters o prs 0
  obtain ⟨sA, sR, sB, sH, sS⟩ :=
    shellTrace_filters path (prLoop o 0 prs).contexts
  cases hab : (prLoop o 0 prs).aborted with
  | true =>
    refine ⟨(prLoop o 0 prs).trace, ?_, lR⟩
    rw [lA, ← relTrace_eq_rev_acquires]
    simp [prBatch, hab]
  | false =>
    refine ⟨(prLoop o 0 prs).trace
        ++ shellTrace path (prLoop o 0 prs).contexts, ?_, ?_⟩
    · rw [List.filter_append, lA, sA, List.append_nil,
        ← relTrace_eq_rev_acquires]
      simp [prBatch, hab]
    · rw [List.filter_append, lR, sR]
      simp

/-! ### Claim C5 -/

/-- C5: with every outcome before position `j = pre.length` soft, the loop
treats the change at position `j` as follows. A build failure is converted
into a soft per-change outcome: its worktree is still acquired and pushed
on the stack, a failure notice naming the change's URL goes to the error
stream, the change contributes nothing to the retained contexts, and the
remaining changes are processed exactly as they would be on their own. Any
other exception — from the build or from worktree acquisition itself —
aborts the batch at once: nothing after position `j` is processed, no
shell handoff happens, the exception propagates, and the already-acquired
worktrees (including, for a failed build step, the one of position `j`)
are still released by the scope unwinding. -/
theorem pr_error_propagation (o : Nat → StepOutcome) (path : Nat → String)
    (pre rest : List Int) (p : Int)
    (h : ∀ k, k < pre.length → isSoft (o k) = true) :
    (o pre.length = .buildFailure →
      prLoop o 0 (pre ++ p :: rest)
        = ⟨(prLoop o 0 pre).trace
            ++ Event.acquire pre.length (wname p)
              :: Event.stderrLine (prFailMsg p)
              :: (prLoop o (pre.length + 1) rest).trace,
           (prLoop o 0 pre).acquired
            ++ (pre.length, wname p)
              :: (prLoop o (pre.length + 1) rest).acquired,
           (prLoop o 0 pre).contexts
            ++ (prLoop o (pre.length + 1) rest).contexts,
           (prLoop o (pre.length + 1) rest).aborted⟩)
    ∧ (o pre.length = .buildOtherError →
      prBatch o path (pre ++ p :: rest)
        = ((prLoop o 0 pre).trace ++ [Event.acquire pre.length (wname p)]
            ++ relTrace ((prLoop o 0 pre).acquired
                ++ [(pre.length, wname p)]),
           ExitKind.exception))
    ∧ (o pre.length = .acquireError →
      prBatch o path (pre ++ p :: rest)
        = ((prLoop o 0 pre).trace ++ relTrace (prLoop o 0 pre).acquired,
           ExitKind.exception)) := by
  have hsplit := prLoop_append o pre (p :: rest) 0
    (by intro k hk; simpa using h k hk)
  simp only [Nat.zero_add] at hsplit
  refine ⟨fun ho => ?_, fun ho => ?_, fun ho => ?_⟩
  · rw [hsplit]
    simp only [prLoop, ho]
  · rw [show prBatch o path (pre ++ p :: rest)
        = (let r := prLoop o 0 (pre ++ p :: rest);
           if r.aborted then (r.trace ++ relTrace r.acquired, .exception)
           else (r.trace ++ shellTrace path r.contexts
              ++ relTrace r.acquired,
             if r.contexts.length = (pre ++ p :: rest).length
             then .normal else .exitCode 1)) from rfl]
    rw [hsplit]
    simp only [prLoop, ho]
    simp
  · rw [show prBatch o path (pre ++ p :: rest)
        = (let r := prLoop o 0 (pre ++ p :: rest);
           if r.aborted then (r.trace ++ relTrace r.acquired, .exception)
           else (r.trace ++ shellTrace path r.contexts
              ++ relTrace r.acquired,
             if r.contexts.length = (pre ++ p :: rest).length
             then .normal else .exitCode 1)) from rfl]
    rw [hsplit]
    simp only [prLoop, ho]
    simp

/-- Concrete instance of C5: with the first build succeeding and the
second failing, the failed change at position 1 yields an acquisition and
a failure notice, is absent from the retained contexts, and the third
change is still processed. -/
theorem pr_error_propagation_witness :
    (oSample 1 = .buildFailure →
      prLoop oSample 0 ([10] ++ 20 :: [30])
        = ⟨(prLoop oSample 0 [10]).trace
            ++ Event.acquire 1 (wname 20)
              :: Event.stderrLine (prFailMsg 20)
              :: (prLoop oSample 2 [30]).trace,
           (prLoop oSample 0 [10]).acquired
            ++ (1, wname 20) :: (prLoop oSample 2 [30]).acquired,
           (prLoop oSample 0 [10]).contexts
            ++ (prLoop oSample 2 [30]).contexts,
           (prLoop oSample 2 [30]).aborted⟩)
    ∧ (oSample 1 = .buildOtherError →
      prBatch oSample pathSample ([10] ++ 20 :: [30])
        = ((prLoop oSample 0 [10]).trace ++ [Event.acquire 1 (wname 20)]
            ++ relTrace ((prLoop oSample 0 [10]).acquired
                ++ [(1, wname 20)]),
           ExitKind.exception))
    ∧ (oSample 1 = .acquireError →
      prBatch oSample pathSample ([10] ++ 20 :: [30])
        = ((prLoop oSample 0 [10]).trace
            ++ relTrace (prLoop oSample 0 [10]).acquired,
           ExitKind.exception)) :=
  pr_error_propagation oSample pathSample [10] [30] 20 (by decide)

/-! ### Claim C7 -/

/-- C7: in single-commit mode an unresolvable ref — `git rev-parse
--verify` raising under `check=True` — propagates as a hard error with an
empty interaction trace: no workspace is ever acquired and no review/build
step is attempted. -/
theorem rev_command_unresolvable (branch : String) (reviewFails : Bool) :
    rev_command none branch reviewFails = ([], ExitKind.exception)
    ∧ (rev_command none branch reviewFails).1.filter isAcquire = []
    ∧ (rev_command none branch reviewFails).1.filter isReview = [] :=
  ⟨rfl, rfl, rfl⟩

/-! ### Claim C8 -/

lemma runCmd_no_buildenv (c : Cmd) :
    Event.buildenvEnter ∉ (runCmd c).1
    ∧ Event.buildenvExit ∉ (runCmd c).1 := by
  cases c with
  | rev resolve branch reviewFails =>
    cases resolve with
    | none => simp [runCmd, rev_command]
    | some commit => simp [runCmd, rev_command]
  | pr o path numberArgs =>
    cases hp : parse_pr_numbers numberArgs with
    | exit msg code => simp [runCmd, pr_command, hp]
    | ok prs =>
      obtain ⟨lA, lR, lH, lS, lB⟩ := prLoop_filters o prs 0
      obtain ⟨sA, sR, sB, sH, sS⟩ :=
        shellTrace_filters path (prLoop o 0 prs).contexts
      obtain ⟨rR, rA, rH, rS, rB⟩ :=
        relTrace_filters (prLoop o 0 prs).acquired
      have hloop := not_mem_of_filter_nil lB (e := Event.buildenvEnter) rfl
      have hloop' := not_mem_of_filter_nil lB (e := Event.buildenvExit) rfl
      have hsh := not_mem_of_filter_nil sB (e := Event.buildenvEnter) rfl
      have hsh' := not_mem_of_filter_nil sB (e := Event.buildenvExit) rfl
      have hrel := not_mem_of_filter_nil rB (e := Event.buildenvEnter) rfl
      have hrel' := not_mem_of_filter_nil rB (e := Event.buildenvExit) rfl
      cases hab : (prLoop o 0 prs).aborted with
      | true =>
        constructor <;>
          simp [runCmd, pr_command, hp, prBatch, hab, hloop, hloop',
            hrel, hrel']
      | false =>
        constructor <;>
          simp [runCmd, pr_command, hp, prBatch, hab, hloop, hloop',
            hsh, hsh', hrel, hrel']

/-- C8: for every invocation the sandboxed build environment is entered
exactly once, as the very first step, wrapping the whole
dispatch-and-execute sequence, and its teardown is the very last step of
the trace regardless of how the dispatched handler exits (normal return,
`sys.exit`, or a propagating exception, whose disposition is preserved
unchanged). -/
theorem main_buildenv_scope (c : Cmd) :
    (main c).1.head? = some Event.buildenvEnter
    ∧ (main c).1.getLast? = some Event.buildenvExit
    ∧ (main c).1.count Event.buildenvEnter = 1
    ∧ (main c).1.count Event.buildenvExit = 1
    ∧ (main c).2 = (runCmd c).2 := by
  obtain ⟨h1, h2⟩ := runCmd_no_buildenv c
  refine ⟨rfl, ?_, ?_, ?_, rfl⟩
  · show (Event.buildenvEnter :: (runCmd c).1
      ++ [Event.buildenvExit]).getLast? = _
    rw [show Event.buildenvEnter :: (runCmd c).1 ++ [Event.buildenvExit]
        = (Event.buildenvEnter :: (runCmd c).1) ++ [Event.buildenvExit]
      from rfl]
    rw [List.getLast?_concat]
  · show (Event.buildenvEnter :: (runCmd c).1
      ++ [Event.buildenvExit]).count Event.buildenvEnter = 1
    rw [show Event.buildenvEnter :: (runCmd c).1 ++ [Event.buildenvExit]
        = (Event.buildenvEnter :: (runCmd c).1) ++ [Event.buildenvExit]
      from rfl]
    rw [List.count_append]
    rw [List.count_cons_self]
    rw [List.count_eq_zero.mpr h1]
    decide
  · show (Event.buildenvEnter :: (runCmd c).1
      ++ [Event.buildenvExit]).count Event.buildenvExit = 1
    rw [show Event.buildenvEnter :: (runCmd c).1 ++ [Event.buildenvExit]
        = (Event.buildenvEnter :: (runCmd c).1) ++ [Event.buildenvExit]
      from rfl]
    rw [List.count_append, List.count_cons,
      List.count_eq_zero.mpr h2]
    decide

end NixReview
